import Mathlib

/-!
Verification of the `secure-probe-go` wallet anomaly probe.

The Go program (src/secure_probe.go) fetches chain state over JSON-RPC,
decodes hex big integers, evaluates three scoring heuristics and emits a
risk report.  This file gives a shallow embedding of the program's pure
core: hex decoding (`hexToBig`), the `big.Float` based wei-to-ether
rendering (`weiToEthText6`), the three scoring rules, the score clamp,
Go slicing of raw RPC results (a partial operation), and the whole `main`
evaluation (`runProbe`) against an abstract RPC oracle.
-/

/-- Lowercase hex digit character for a value below 16, as produced by
Go's `%x` formatting verb ('0'..'9','a'..'f'). -/
def hexDigit (n : ℕ) : Char :=
  if n < 10 then Char.ofNat (48 + n) else Char.ofNat (87 + n)

/-- Value of a hex digit character, accepting both cases, as accepted by
Go's `big.Int.SetString` with base 16; `none` on a non-hex character. -/
def hexDigitVal? (c : Char) : Option ℕ :=
  if '0' ≤ c ∧ c ≤ '9' then some (c.toNat - 48)
  else if 'a' ≤ c ∧ c ≤ 'f' then some (c.toNat - 87)
  else if 'A' ≤ c ∧ c ≤ 'F' then some (c.toNat - 55)
  else none

/-- Greedy scan of leading hex digits, accumulating their value, exactly as
`big.Int` scanning consumes a mantissa: stops at the first non-digit and
returns the value read so far together with the unread remainder. -/
def parseHexDigits : List Char → ℕ → ℕ × List Char
  | [], acc => (acc, [])
  | c :: cs, acc =>
    match hexDigitVal? c with
    | some d => parseHexDigits cs (16 * acc + d)
    | none => (acc, c :: cs)

/-- Strip one leading "0x", mirroring `strings.TrimPrefix(s, "0x")`. -/
def dropHexMark : List Char → List Char
  | '0' :: 'x' :: cs => cs
  | cs => cs

/-- Embedding of `hexToBig` (src/secure_probe.go lines 49-53) on a char
list.  `big.Int.SetString(t, 16)` reads an optional sign and then a greedy
run of hex digits; the `(nil, false)` failure result is discarded by the Go
function, which returns the receiver `z` regardless, i.e. the value of the
longest valid prefix (zero when no digit was read). -/
def hexToBigL (cs : List Char) : ℤ :=
  if cs.head? = some '-' then -((parseHexDigits cs.tail 0).1 : ℤ)
  else if cs.head? = some '+' then ((parseHexDigits cs.tail 0).1 : ℤ)
  else ((parseHexDigits cs 0).1 : ℤ)

/-- Embedding of `hexToBig`: trim an optional "0x" then scan as base 16. -/
def hexToBig (s : String) : ℤ :=
  hexToBigL (dropHexMark s.data)

/-- Value of a list of hex digits read most-significant first. -/
def hexListVal (l : List Char) : ℕ :=
  l.foldl (fun a c => 16 * a + (hexDigitVal? c).getD 0) 0

/-- Modelled from the spec: `decodeHex` as §4.1 words it ("strips an
optional 0x prefix and parses the remainder as a base-16 unsigned integer
of unbounded width. Fails with `DecodeError` on non-hex characters.").
The source's `hexToBig` discards the parse error, so the spec's failing
variant is reconstructed here for comparison; the error payload carries no
information beyond "decode failed". -/
def decodeHexSpec (s : String) : Except Unit ℤ :=
  let t := dropHexMark s.data
  if t ≠ [] ∧ ∀ c ∈ t, (hexDigitVal? c).isSome then
    .ok (hexListVal t)
  else
    .error ()

/-! Model of `weiToEth` (src/secure_probe.go lines 55-60).  The Go function
builds `f := new(big.Float).SetInt(x)` (exact; the precision of `f` becomes
`max(x.BitLen(), 64)`, rounding mode ToNearestEven), divides by
`big.NewFloat(1e18)` (the float64 literal 1e18 is exactly 10^18, since
5^18 < 2^53), rounding the quotient to `f`'s precision to nearest-even,
and renders it with `Text('f', 6)`, which converts the binary value to
decimal exactly and rounds to 6 fractional digits half-to-even. -/

/-- Fuel-driven base-2 logarithm (structural, so that the kernel can
evaluate it): with fuel at least n, equals floor(log2 n) for n > 0. -/
def log2fuel : ℕ → ℕ → ℕ
  | 0, _ => 0
  | fuel + 1, n => if 2 ≤ n then log2fuel fuel (n / 2) + 1 else 0

/-- Bit length of a natural number, matching Go's `big.Int.BitLen`
(bitlen 0 = 0). -/
def bitlen (n : ℕ) : ℕ :=
  if n = 0 then 0 else log2fuel n n + 1

/-- Round the non-negative fraction n/d (with d > 0) to the nearest
integer, ties to even. -/
def roundHalfEvenFrac (n d : ℕ) : ℕ :=
  let f := n / d
  let r := n % d
  if 2 * r < d then f
  else if d < 2 * r then f + 1
  else if f % 2 = 0 then f else f + 1

/-- Floor of log2 of the positive fraction n/d: bit lengths bracket the
value to one of two candidates, and a cross-multiplied comparison picks
the right one. -/
def fracFloorLog2 (n d : ℕ) : ℤ :=
  let e : ℤ := (bitlen n : ℤ) - (bitlen d : ℤ)
  if 0 ≤ e then (if 2 ^ e.toNat * d ≤ n then e else e - 1)
  else (if d ≤ 2 ^ (-e).toNat * n then e else e - 1)

/-- Multiply the fraction n/d by 2^k for a signed k. -/
def fracScalePow2 (n d : ℕ) (k : ℤ) : ℕ × ℕ :=
  if 0 ≤ k then (n * 2 ^ k.toNat, d) else (n, d * 2 ^ (-k).toNat)

/-- Round the non-negative fraction n/d to a binary floating-point value
with a p-bit mantissa, nearest-even — the semantics of `big.Float`
rounding at precision p.  Returns the result as a fraction whose
denominator is a power of two. -/
def roundBinaryFrac (p : ℕ) (n d : ℕ) : ℕ × ℕ :=
  if n = 0 then (0, 1)
  else
    let k : ℤ := (p : ℤ) - 1 - fracFloorLog2 n d
    let s := fracScalePow2 n d k
    fracScalePow2 (roundHalfEvenFrac s.1 s.2) 1 (-k)

/-- Left-pad a natural's decimal form with zeros to 6 characters. -/
def pad6 (m : ℕ) : String :=
  String.mk (List.replicate (6 - (toString m).length) '0') ++ toString m

/-- Render the non-negative fraction n/d with exactly 6 digits after the
decimal point, rounding half-to-even on the exact value: the behaviour of
`big.Float.Text('f', 6)`, which converts the stored (dyadic, hence
finitely-expanded) value to decimal exactly and rounds at the 6th digit,
ties to even. -/
def text6Frac (n d : ℕ) : String :=
  let t := roundHalfEvenFrac (n * 10 ^ 6) d
  toString (t / 10 ^ 6) ++ "." ++ pad6 (t % 10 ^ 6)

/-- Embedding of `weiToEth(x).Text('f', 6)` for a non-negative wei amount:
binary division of x by 10^18 at precision max(bitlen x, 64), then
6-digit rendering. -/
def weiToEthText6 (x : ℕ) : String :=
  let p := max (bitlen x) 64
  let v := roundBinaryFrac p x (10 ^ 18)
  text6Frac v.1 v.2

/-- Embedding of `weiToEth(x).Text('f', 6)` for a signed big integer:
`big.Float` arithmetic and rendering are sign-symmetric. -/
def weiToEthText6Int (x : ℤ) : String :=
  if x < 0 then "-" ++ weiToEthText6 x.natAbs else weiToEthText6 x.toNat

/-- Modelled from the spec: `weiToEther` as §4.1 words it — divide by 10^18
using exact decimal arithmetic and render exactly 6 fractional digits with
round-half-to-even (the rounding mode the spec names). -/
def weiToEtherSpecHalfEven (x : ℕ) : String :=
  text6Frac x (10 ^ 18)

/-! Scoring rules (src/secure_probe.go lines 94-118).  Each rule returns
its score contribution and the list of reasons it appends (empty or a
single string), exactly as the corresponding `if` block in `main`. -/

/-- Balance-drain rule (lines 96-100): `balDiff := balPast - balLatest`;
if `balDiff.Sign() > 0` add 35 and append the drop reason rendered through
`weiToEth(balDiff).Text('f', 6)`. -/
def balanceRule (balPast balLatest : ℤ) : ℤ × List String :=
  let balDiff := balPast - balLatest
  if 0 < balDiff then
    (35, ["balance drop ~" ++ weiToEthText6Int balDiff ++ " ETH/100 blocks"])
  else (0, [])

/-- Activity-spike rule (lines 101-105): `nonceDiff := nonceNow -
noncePast`; if `nonceDiff.Cmp(20) > 0` add 25 and append the activity
reason with the decimal rendering of the delta. -/
def nonceRule (nonceNow noncePast : ℤ) : ℤ × List String :=
  let nonceDiff := nonceNow - noncePast
  if 20 < nonceDiff then
    (25, ["high tx activity: +" ++ toString nonceDiff ++ " nonce/100 blocks"])
  else (0, [])

/-- Code-presence rule (lines 111-115): the raw `eth_getCode` result
(quotes included) longer than 4 bytes — i.e. not the `"0x"` sentinel —
adds 10 and appends the code reason. -/
def codeRule (rawCodeLen : ℕ) : ℤ × List String :=
  if 4 < rawCodeLen then
    (10, ["address has code (smart wallet or contract)"])
  else (0, [])

/-- Final clamp (line 118): `if score > 100 { score = 100 }`. -/
def clamp (s : ℤ) : ℤ :=
  if 100 < s then 100 else s

/-! Hex rendering, mirroring Go's `fmt.Sprintf("0x%x", n)` on `big.Int`:
lowercase digits, no padding, "0" for zero, sign before the digits. -/

/-- Most-significant-first hex digits of n, prepended to `rest`; fuel-
driven so that the kernel can evaluate it (fuel n+1 always suffices). -/
def hexCharsAux : ℕ → ℕ → List Char → List Char
  | 0, _, rest => rest
  | fuel + 1, n, rest =>
    if n < 16 then hexDigit n :: rest
    else hexCharsAux fuel (n / 16) (hexDigit (n % 16) :: rest)

/-- Hex digit list of a natural number (["0"] for zero). -/
def hexCharsL (n : ℕ) : List Char :=
  hexCharsAux (n + 1) n []

/-- Hex string of a natural number, as `%x` renders a non-negative
`big.Int`. -/
def hexStr (n : ℕ) : String :=
  String.mk (hexCharsL n)

/-- Hex string of an integer, as `%x` renders a `big.Int` (`-` before the
absolute value's digits). -/
def hexStrInt (z : ℤ) : String :=
  if z < 0 then "-" ++ hexStr z.natAbs else hexStr z.toNat

/-! The evaluation of `main` (src/secure_probe.go lines 62-136) against an
abstract RPC endpoint.  A remote call either fails (Go: `err != nil`, the
raw result slice is `nil`) or yields the raw JSON result bytes, quotes
included.  `main` slices every raw numeric result with
`raw[1:len(raw)-1]`; Go slicing is partial and panics when the bounds are
out of range — in particular on the `nil` result of a failed call. -/

/-- Go string/byte-slice expression `s[lo:hi]`: defined only when
`0 ≤ lo ≤ hi ≤ len s`; out-of-range bounds panic at runtime (`none`). -/
def goSlice (s : String) (lo hi : ℤ) : Option String :=
  if 0 ≤ lo ∧ lo ≤ hi ∧ hi ≤ (s.length : ℤ) then
    some (String.mk ((s.data.drop lo.toNat).take (hi.toNat - lo.toNat)))
  else none

/-- A raw remote-call result: `none` models `err != nil` (in which case the
Go result slice is `nil`, which has length 0). -/
def rawLen (o : Option String) : ℕ :=
  (o.getD "").length

/-- The `raw[1:len(raw)-1]` quote-stripping applied to every numeric RPC
result, on the `nil`-when-failed raw value. -/
def sliceRaw (o : Option String) : Option String :=
  goSlice (o.getD "") 1 ((rawLen o : ℤ) - 1)

/-- Abstract RPC endpoint: the four remote calls `main` issues.  Balance,
transaction-count and code queries take the block-tag argument `main`
passes ("latest" or a "0x…" height). -/
structure Rpc where
  blockNumber : Option String
  getBalance : String → Option String
  getTxCount : String → Option String
  getCode : String → Option String

/-- How a run can abort: `errAbort` is the deliberate `panic(err)` when the
initial block-number fetch fails (line 71); `sliceOOB` is the runtime
"slice bounds out of range" panic raised by `raw[1:len(raw)-1]` on a bad
(in particular `nil`) raw result. -/
inductive Panic where
  | errAbort
  | sliceOOB
deriving DecidableEq

/-- The externally-visible report assembled at lines 119-131. -/
structure Report where
  address : String
  blockHex : String
  score : ℤ
  reasons : List String
  balanceEth : String
deriving DecidableEq

/-- The heuristic evaluation of lines 94-118 on the decoded snapshot:
rules in fixed order (balance drain, activity spike, code presence), score
summed then clamped, reasons concatenated in evaluation order. -/
def evalRules (balPast balLatest nonceNow noncePast : ℤ) (rawCodeLen : ℕ) :
    ℤ × List String :=
  let b := balanceRule balPast balLatest
  let n := nonceRule nonceNow noncePast
  let c := codeRule rawCodeLen
  (clamp (b.1 + n.1 + c.1), b.2 ++ n.2 ++ c.2)

/-- The tail of `main` after the balances are settled (lines 87-131): the
two nonce fetches (each sliced, panicking on a `nil` raw result), the
rules over the decoded snapshot, and the report.  `pastBlock` is the same
value `main` computed at lines 79-81. -/
def probeRest (addr : String) (rpc : Rpc) (latest pastBlock balLatest balPast : ℤ) :
    Except Panic Report :=
  match sliceRaw (rpc.getTxCount "latest") with
  | none => .error .sliceOOB
  | some nNowStr =>
    match sliceRaw (rpc.getTxCount ("0x" ++ hexStrInt pastBlock)) with
    | none => .error .sliceOOB
    | some nPastStr =>
      .ok { address := addr
            blockHex := "0x" ++ hexStrInt latest
            score := (evalRules balPast balLatest (hexToBig nNowStr)
              (hexToBig nPastStr) (rawLen (rpc.getCode "latest"))).1
            reasons := (evalRules balPast balLatest (hexToBig nNowStr)
              (hexToBig nPastStr) (rawLen (rpc.getCode "latest"))).2
            balanceEth := weiToEthText6Int balLatest }

/-- Embedding of `main`'s evaluation (lines 70-131) against an RPC
endpoint: block number (fatal on error, then quote-stripped), balance at
"latest", reference block and balance (fetched only when latest > 100,
otherwise both collapse to the latest values), then `probeRest`.  Every
failed secondary call leaves a `nil` raw result whose slicing panics; the
code fetch is never sliced, only its raw length is tested. -/
def runProbe (addr : String) (rpc : Rpc) : Except Panic Report :=
  match rpc.blockNumber with
  | none => .error .errAbort
  | some bnRaw =>
    match goSlice bnRaw 1 ((bnRaw.length : ℤ) - 1) with
    | none => .error .sliceOOB
    | some bnStr =>
      match sliceRaw (rpc.getBalance "latest") with
      | none => .error .sliceOOB
      | some balStr =>
        if 100 < hexToBig bnStr then
          match sliceRaw (rpc.getBalance ("0x" ++ hexStrInt (hexToBig bnStr - 100))) with
          | none => .error .sliceOOB
          | some s =>
            probeRest addr rpc (hexToBig bnStr) (hexToBig bnStr - 100)
              (hexToBig balStr) (hexToBig s)
        else
          probeRest addr rpc (hexToBig bnStr) (hexToBig bnStr)
            (hexToBig balStr) (hexToBig balStr)

/-! A well-behaved chain backing the RPC endpoint: a consistent snapshot
serving every query from the same state, with the "latest" tag resolving
to the latest height.  This is the environment model the spec's §4.3
algorithm assumes. -/

/-- A consistent chain snapshot. `codeHex` is the hex payload (without the
"0x" mark) of the code deployed at the probed address. -/
structure Chain where
  latest : ℕ
  balanceAt : ℕ → ℕ
  nonceAt : ℕ → ℕ
  codeHex : String

/-- Resolve a block-tag argument to a height. -/
def tagToHeight (c : Chain) (tag : String) : ℕ :=
  if tag = "latest" then c.latest else (hexToBig tag).toNat

/-- Wrap a JSON string result in its quotes, as the raw bytes of a
successful RPC result carry them. -/
def quoteWrap (s : String) : String :=
  String.mk ('"' :: s.data ++ ['"'])

/-- The RPC endpoint served from a consistent chain snapshot. -/
def chainRpc (c : Chain) : Rpc where
  blockNumber := some (quoteWrap ("0x" ++ hexStr c.latest))
  getBalance := fun tag => some (quoteWrap ("0x" ++ hexStr (c.balanceAt (tagToHeight c tag))))
  getTxCount := fun tag => some (quoteWrap ("0x" ++ hexStr (c.nonceAt (tagToHeight c tag))))
  getCode := fun _ => some (quoteWrap ("0x" ++ c.codeHex))

deriving instance DecidableEq for Except

/-! Round-trip lemmas: the hex rendering used by the chain model is parsed
back to the same number by `hexToBig`. -/

lemma hexDigitVal?_hexDigit : ∀ d : ℕ, d < 16 → hexDigitVal? (hexDigit d) = some d := by
  decide

lemma hexDigit_ne_minus : ∀ d : ℕ, d < 16 → hexDigit d ≠ '-' := by decide

lemma hexDigit_ne_plus : ∀ d : ℕ, d < 16 → hexDigit d ≠ '+' := by decide

lemma parseHexDigits_digit_cons (d : ℕ) (hd : d < 16) (rest : List Char) (a : ℕ) :
    parseHexDigits (hexDigit d :: rest) a = parseHexDigits rest (16 * a + d) := by
  simp [parseHexDigits, hexDigitVal?_hexDigit d hd]

lemma hexCharsAux_head :
    ∀ fuel n rest, 0 < fuel →
      ∃ d t, d < 16 ∧ hexCharsAux fuel n rest = hexDigit d :: t := by
  intro fuel
  induction fuel with
  | zero => intro n rest h; omega
  | succ f ih =>
    intro n rest _
    by_cases hn : n < 16
    · exact ⟨n, rest, hn, by simp [hexCharsAux, hn]⟩
    · rcases Nat.eq_zero_or_pos f with hf0 | hf
      · subst hf0
        exact ⟨n % 16, rest, by omega, by simp [hexCharsAux, hn]⟩
      · obtain ⟨d, t, hd, ht⟩ := ih (n / 16) (hexDigit (n % 16) :: rest) hf
        exact ⟨d, t, hd, by simp [hexCharsAux, hn, ht]⟩

lemma hexCharsAux_parse :
    ∀ fuel n rest a, 0 < fuel → n < 16 ^ fuel →
      ∃ k, 0 < k ∧
        parseHexDigits (hexCharsAux fuel n rest) a = parseHexDigits rest (a * 16 ^ k + n) := by
  intro fuel
  induction fuel with
  | zero => intro n rest a h; omega
  | succ f ih =>
    intro n rest a _ hn
    by_cases h16 : n < 16
    · refine ⟨1, by omega, ?_⟩
      rw [show hexCharsAux (f + 1) n rest = hexDigit n :: rest by simp [hexCharsAux, h16]]
      rw [parseHexDigits_digit_cons n h16]
      ring_nf
    · have hf : 0 < f := by
        rcases Nat.eq_zero_or_pos f with hf0 | hf0
        · subst hf0; simp at hn; omega
        · exact hf0
      have hdiv : n / 16 < 16 ^ f := by
        have : n < 16 ^ f * 16 := by
          calc n < 16 ^ (f + 1) := hn
          _ = 16 ^ f * 16 := by ring
        omega
      obtain ⟨k, hk, hp⟩ := ih (n / 16) (hexDigit (n % 16) :: rest) a hf hdiv
      refine ⟨k + 1, by omega, ?_⟩
      rw [show hexCharsAux (f + 1) n rest =
            hexCharsAux f (n / 16) (hexDigit (n % 16) :: rest) by simp [hexCharsAux, h16]]
      rw [hp, parseHexDigits_digit_cons (n % 16) (by omega)]
      congr 1
      have hmod : 16 * (n / 16) + n % 16 = n := by omega
      calc 16 * (a * 16 ^ k + n / 16) + n % 16
          = a * (16 ^ k * 16) + (16 * (n / 16) + n % 16) := by ring
        _ = a * 16 ^ (k + 1) + n := by rw [hmod]; ring

lemma parseHexDigits_hexCharsL (n : ℕ) : parseHexDigits (hexCharsL n) 0 = (n, []) := by
  have hbound : n < 16 ^ (n + 1) := by
    calc n < 2 ^ n := Nat.lt_two_pow n
      _ ≤ 2 ^ (4 * (n + 1)) := Nat.pow_le_pow_right (by omega) (by omega)
      _ = 16 ^ (n + 1) := by rw [show (16 : ℕ) = 2 ^ 4 by norm_num, ← pow_mul]
  obtain ⟨k, _, hp⟩ := hexCharsAux_parse (n + 1) n [] 0 (by omega) hbound
  rw [hexCharsL, hp]
  simp [parseHexDigits]

lemma hexCharsL_head (n : ℕ) : ∃ d t, d < 16 ∧ hexCharsL n = hexDigit d :: t :=
  hexCharsAux_head (n + 1) n [] (by omega)

lemma data_append_0x (s : String) : ("0x" ++ s).data = '0' :: 'x' :: s.data := by
  rw [String.data_append]
  rfl

lemma hexToBig_roundtrip (n : ℕ) : hexToBig ("0x" ++ hexStr n) = (n : ℤ) := by
  obtain ⟨d, t, hd, ht⟩ := hexCharsL_head n
  have hdata : ("0x" ++ hexStr n).data = '0' :: 'x' :: hexCharsL n := by
    rw [data_append_0x]; rfl
  rw [hexToBig, hdata]
  rw [show dropHexMark ('0' :: 'x' :: hexCharsL n) = hexCharsL n from rfl]
  rw [hexToBigL, ht]
  rw [if_neg (by simp [hexDigit_ne_minus d hd]), if_neg (by simp [hexDigit_ne_plus d hd])]
  rw [← ht, parseHexDigits_hexCharsL n]

/-! Helpers about quoted raw results and block tags. -/

lemma quoteWrap_length (s : String) : (quoteWrap s).length = s.length + 2 := by
  rcases s with ⟨l⟩
  show ('"' :: l ++ ['"']).length = l.length + 2
  simp

lemma goSlice_quoteWrap (s : String) :
    goSlice (quoteWrap s) 1 (((quoteWrap s).length : ℤ) - 1) = some s := by
  rw [goSlice, if_pos (by rw [quoteWrap_length]; omega)]
  congr 1
  rw [quoteWrap_length]
  have h1 : ((1 : ℤ)).toNat = 1 := rfl
  have h2 : (((s.length + 2 : ℕ) : ℤ) - 1).toNat = s.length + 1 := by omega
  rw [h1, h2]
  have hdrop : (quoteWrap s).data.drop 1 = s.data ++ ['"'] := by
    simp [quoteWrap]
  rw [hdrop]
  have hlen : s.length + 1 - 1 = s.data.length := by
    show s.data.length + 1 - 1 = s.data.length
    omega
  rw [hlen, List.take_left]

lemma sliceRaw_quoteWrap (s : String) : sliceRaw (some (quoteWrap s)) = some s := by
  have h := goSlice_quoteWrap s
  rw [sliceRaw]
  simpa [rawLen] using h

lemma rawLen_quoteWrap (s : String) : rawLen (some (quoteWrap s)) = s.length + 2 := by
  simp [rawLen, quoteWrap_length]

lemma hexMark_append_ne_latest (s : String) : ("0x" ++ s) ≠ "latest" := by
  intro h
  have hd := congrArg String.data h
  rw [data_append_0x] at hd
  have : '0' = 'l' := by
    have : ("latest" : String).data = ['l', 'a', 't', 'e', 's', 't'] := rfl
    rw [this] at hd
    exact List.head_eq_of_cons_eq hd
  exact absurd this (by decide)

lemma tagToHeight_latest (c : Chain) : tagToHeight c "latest" = c.latest := by
  simp [tagToHeight]

lemma tagToHeight_hexTag (c : Chain) (n : ℕ) :
    tagToHeight c ("0x" ++ hexStr n) = n := by
  rw [tagToHeight, if_neg (hexMark_append_ne_latest _), hexToBig_roundtrip]
  exact Int.toNat_natCast n

lemma hexStrInt_natCast (n : ℕ) : hexStrInt (n : ℤ) = hexStr n := by
  rw [hexStrInt, if_neg (by omega)]
  rfl

lemma weiToEthText6Int_natCast (n : ℕ) : weiToEthText6Int (n : ℤ) = weiToEthText6 n := by
  rw [weiToEthText6Int, if_neg (by omega)]
  rfl

/-! Degenerate-window behaviour: when the latest height is at most 100 the
reference block collapses to the latest block and the two delta rules see
identical values. -/

lemma balanceRule_self (a : ℤ) : balanceRule a a = (0, []) := by
  simp [balanceRule]

lemma nonceRule_self (a : ℤ) : nonceRule a a = (0, []) := by
  simp [nonceRule]

lemma hexMark_append_length (s : String) : ("0x" ++ s).length = s.length + 2 := by
  show ("0x" ++ s).data.length = s.data.length + 2
  rw [data_append_0x]
  simp

theorem runProbe_latest_le_100_check (addr : String) (c : Chain) (h : c.latest ≤ 100) :
    runProbe addr (chainRpc c) =
      .ok { address := addr
            blockHex := "0x" ++ hexStr c.latest
            score := if 0 < c.codeHex.length then 10 else 0
            reasons := if 0 < c.codeHex.length then
                ["address has code (smart wallet or contract)"]
              else []
            balanceEth := weiToEthText6 (c.balanceAt c.latest) } := by
  have hlt : ¬ (100 < ((c.latest : ℕ) : ℤ)) := by exact_mod_cast not_lt.mpr h
  unfold runProbe probeRest
  simp only [chainRpc, goSlice_quoteWrap, sliceRaw_quoteWrap, hexToBig_roundtrip,
    tagToHeight_latest, if_neg hlt, hexStrInt_natCast, tagToHeight_hexTag,
    weiToEthText6Int_natCast, evalRules, balanceRule_self, nonceRule_self,
    rawLen_quoteWrap, hexMark_append_length]
  by_cases hc : 0 < c.codeHex.length
  · have h4 : 4 < c.codeHex.length + 2 + 2 := by omega
    simp [codeRule, h4, clamp, hc]
  · have h0 : c.codeHex.length = 0 := by omega
    simp [codeRule, h0, clamp, hc]

/-! Shape of any successfully produced report: its score and reasons are
exactly the output of `evalRules` on some decoded snapshot. -/

lemma probeRest_ok_shape (addr : String) (rpc : Rpc)
    (latest pastBlock balLatest balPast : ℤ)
    (r : Report) (h : probeRest addr rpc latest pastBlock balLatest balPast = .ok r) :
    ∃ nonceNow noncePast rawCodeLen,
      r.score = (evalRules balPast balLatest nonceNow noncePast rawCodeLen).1 ∧
      r.reasons = (evalRules balPast balLatest nonceNow noncePast rawCodeLen).2 := by
  unfold probeRest at h
  split at h
  · cases h
  · split at h
    · cases h
    · exact ⟨_, _, _, by cases h; rfl, by cases h; rfl⟩

lemma runProbe_ok_shape (addr : String) (rpc : Rpc) (r : Report)
    (h : runProbe addr rpc = .ok r) :
    ∃ balPast balLatest nonceNow noncePast rawCodeLen,
      r.score = (evalRules balPast balLatest nonceNow noncePast rawCodeLen).1 ∧
      r.reasons = (evalRules balPast balLatest nonceNow noncePast rawCodeLen).2 := by
  unfold runProbe at h
  split at h
  · cases h
  · split at h
    · cases h
    · split at h
      · cases h
      · split at h
        · split at h
          · cases h
          · obtain ⟨nn, np, cl, h1, h2⟩ := probeRest_ok_shape _ _ _ _ _ _ _ h
            exact ⟨_, _, nn, np, cl, h1, h2⟩
        · obtain ⟨nn, np, cl, h1, h2⟩ := probeRest_ok_shape _ _ _ _ _ _ _ h
          exact ⟨_, _, nn, np, cl, h1, h2⟩

/-! Small facts about the individual rules and the clamp. -/

lemma balanceRule_fst (bp bl : ℤ) :
    (balanceRule bp bl).1 = 0 ∨ (balanceRule bp bl).1 = 35 := by
  simp only [balanceRule]
  split <;> simp

lemma nonceRule_fst (nn np : ℤ) :
    (nonceRule nn np).1 = 0 ∨ (nonceRule nn np).1 = 25 := by
  simp only [nonceRule]
  split <;> simp

lemma codeRule_fst (cl : ℕ) :
    (codeRule cl).1 = 0 ∨ (codeRule cl).1 = 10 := by
  simp only [codeRule]
  split <;> simp

lemma balanceRule_snd_len (bp bl : ℤ) : (balanceRule bp bl).2.length ≤ 1 := by
  simp only [balanceRule]
  split <;> simp

lemma nonceRule_snd_len (nn np : ℤ) : (nonceRule nn np).2.length ≤ 1 := by
  simp only [nonceRule]
  split <;> simp

lemma codeRule_snd_len (cl : ℕ) : (codeRule cl).2.length ≤ 1 := by
  simp only [codeRule]
  split <;> simp

lemma sliceRaw_none : sliceRaw none = none := by decide

lemma hexDigitVal?_isSome_ne_sign {c : Char} (h : (hexDigitVal? c).isSome) :
    c ≠ '-' ∧ c ≠ '+' := by
  constructor <;> intro hc <;> subst hc <;> simp [hexDigitVal?] at h

lemma parseHexDigits_all_valid :
    ∀ (l : List Char) (a : ℕ), (∀ c ∈ l, (hexDigitVal? c).isSome) →
      parseHexDigits l a =
        (l.foldl (fun x c => 16 * x + (hexDigitVal? c).getD 0) a, []) := by
  intro l
  induction l with
  | nil => intro a _; simp [parseHexDigits]
  | cons c t ih =>
    intro a hall
    have hc : (hexDigitVal? c).isSome := hall c (by simp)
    obtain ⟨d, hd⟩ := Option.isSome_iff_exists.mp hc
    have ht : ∀ x ∈ t, (hexDigitVal? x).isSome := fun x hx => hall x (by simp [hx])
    simp only [parseHexDigits, hd, List.foldl_cons]
    rw [ih (16 * a + d) ht]
    simp [hd]

/-! Claim theorems. -/

/-- C1 (counterexample): with latest = 50 (≤ 100) the reference block
collapses to the latest block and both deltas are zero, yet a run against
an address that has deployed code scores 10 with a non-empty reasons
list, so "score 0 and empty reasons" fails as stated. -/
theorem degenerateRun_code_scores_ten :
    (50 : ℕ) ≤ 100 ∧
    runProbe "0xa" (chainRpc ⟨50, fun _ => 0, fun _ => 0, "6080"⟩) =
      .ok { address := "0xa", blockHex := "0x32", score := 10,
            reasons := ["address has code (smart wallet or contract)"],
            balanceEth := "0.000000" } :=
  ⟨by omega, by decide⟩

/-- C1 (amended): for every consistent chain with latest height at most
100, the reference block equals the latest block, the balance and nonce
deltas are zero and contribute nothing, and the report carries score 0
with empty reasons unless the address has code, in which case only the
code-presence rule fires (score 10, one reason). -/
theorem runProbe_latest_le_100 (addr : String) (c : Chain) (h : c.latest ≤ 100) :
    runProbe addr (chainRpc c) =
      .ok { address := addr
            blockHex := "0x" ++ hexStr c.latest
            score := if 0 < c.codeHex.length then 10 else 0
            reasons := if 0 < c.codeHex.length then
                ["address has code (smart wallet or contract)"]
              else []
            balanceEth := weiToEthText6 (c.balanceAt c.latest) } :=
  runProbe_latest_le_100_check addr c h

/-- C1 (witness): the amended claim applied to a concrete degenerate chain
with no code: score 0, reasons empty. -/
theorem runProbe_latest_le_100_witness :
    runProbe "0xw" (chainRpc ⟨50, fun _ => 0, fun _ => 0, ""⟩) =
      .ok { address := "0xw", blockHex := "0x32", score := 0, reasons := [],
            balanceEth := "0.000000" } := by
  have h := runProbe_latest_le_100 "0xw" ⟨50, fun _ => 0, fun _ => 0, ""⟩ (by decide)
  exact h.trans (by decide)

/-- C2 (code evaluated at the failing input): when the `eth_getCode` call
fails, `main` discards the error, the `nil` raw result has length 0, the
code-presence test is silently skipped, and a complete report is still
emitted — contradicting the fail-fast contract the spec states for every
secondary remote-call failure. -/
theorem runProbe_codeFetchError_report :
    runProbe "0xa"
      { chainRpc ⟨1000, fun h => if h = 1000 then 10 ^ 18 else 2 * 10 ^ 18,
          fun _ => 5, ""⟩ with
        getCode := fun _ => none } =
      .ok { address := "0xa", blockHex := "0x3e8", score := 35,
            reasons := ["balance drop ~1.000000 ETH/100 blocks"],
            balanceEth := "1.000000" } := by
  decide

/-- C3 (counterexample): `weiToEth` does not implement decimal division
with round-half-to-even: the input 5·10^11 wei is exactly 0.0000005 ether,
whose half-even 6-digit decimal rendering is "0.000000", but the binary
double rounding in the code yields "0.000001". -/
theorem weiToEth_not_decimal_half_even :
    weiToEthText6 (5 * 10 ^ 11) = "0.000001" ∧
    weiToEtherSpecHalfEven (5 * 10 ^ 11) = "0.000000" :=
  ⟨by decide, by decide⟩

/-- C3 (amended): `weiToEth` divides by 10^18 in binary floating point
(precision max(bitlen, 64), nearest-even) and renders exactly 6 fractional
digits; the composite is deterministic but matches no single decimal
rounding mode — the exact tie 0.0000005 rounds up while the exact tie
0.0000025 rounds down (half-even would keep both even, half-up would raise
both) — and for input 10^18 it returns "1.000000". -/
theorem weiToEth_rendering :
    weiToEthText6 (10 ^ 18) = "1.000000" ∧
    weiToEthText6 (5 * 10 ^ 11) = "0.000001" ∧
    weiToEthText6 (25 * 10 ^ 11) = "0.000002" ∧
    weiToEtherSpecHalfEven (25 * 10 ^ 11) = "0.000002" :=
  ⟨by decide, by decide, by decide, by decide⟩

/-- C4 (counterexample): `hexToBig` never fails: on "0xzz", whose remainder
contains non-hex characters, it silently returns 0, while the spec's
`decodeHex` is required to fail with a decode error there. -/
theorem hexToBig_invalid_returns_zero :
    hexToBig "0xzz" = 0 ∧ decodeHexSpec "0xzz" = .error () :=
  ⟨by decide, by decide⟩

set_option maxRecDepth 4000 in
/-- C4 (amended): `hexToBig` strips an optional "0x" and parses hex digits
of unbounded width — correct on every all-hex remainder, including 256-bit
values — but it discards the parse failure of `SetString`: on a remainder
with non-hex characters it returns the value of the longest valid digit
run (zero when there is none) instead of failing. -/
theorem hexToBig_spec :
    (∀ l : List Char, (∀ c ∈ l, (hexDigitVal? c).isSome) →
      hexToBig (String.mk ('0' :: 'x' :: l)) = (hexListVal l : ℤ)) ∧
    hexToBig "0xffffffffffffffffffffffffffffffffffffffffffffffffffffffffffffffff" =
      2 ^ 256 - 1 ∧
    hexToBig "0x12zz" = 18 := by
  refine ⟨?_, by decide, by decide⟩
  intro l hall
  show hexToBigL (dropHexMark ('0' :: 'x' :: l)) = (hexListVal l : ℤ)
  rw [show dropHexMark ('0' :: 'x' :: l) = l from rfl]
  cases l with
  | nil => decide
  | cons c t =>
    have hc := hall c (by simp)
    obtain ⟨hm, hp⟩ := hexDigitVal?_isSome_ne_sign hc
    rw [hexToBigL,
      if_neg (by simp [hm]),
      if_neg (by simp [hp]),
      parseHexDigits_all_valid (c :: t) 0 hall]
    rfl

/-- C4 (witness): the amended parsing statement applied to the concrete
all-hex remainder "ab". -/
theorem hexToBig_spec_witness :
    hexToBig (String.mk ('0' :: 'x' :: ['a', 'b'])) = 171 := by
  have h := hexToBig_spec.1 ['a', 'b'] (by decide)
  exact h.trans (by decide)

/-- C5: the activity-spike rule contributes +25 with exactly one reason
iff the nonce delta is strictly greater than 20, and contributes nothing
otherwise; the boundary delta 20 is exclusive, and delta 21 fires exactly
once. -/
theorem nonceRule_spec :
    (∀ nonceNow noncePast : ℤ,
      (20 < nonceNow - noncePast →
        nonceRule nonceNow noncePast =
          (25, ["high tx activity: +" ++ toString (nonceNow - noncePast) ++
            " nonce/100 blocks"])) ∧
      (nonceNow - noncePast ≤ 20 → nonceRule nonceNow noncePast = (0, []))) ∧
    nonceRule 20 0 = (0, []) ∧
    nonceRule 21 0 = (25, ["high tx activity: +21 nonce/100 blocks"]) := by
  refine ⟨?_, by decide, by decide⟩
  intro nn np
  constructor
  · intro h
    simp only [nonceRule]
    rw [if_pos h]
  · intro h
    simp only [nonceRule]
    rw [if_neg (by omega)]

/-- C5 (witness): the rule applied at the concrete pair (25, 2): delta 23
triggers once. -/
theorem nonceRule_spec_witness :
    nonceRule 25 2 = (25, ["high tx activity: +23 nonce/100 blocks"]) := by
  have h := (nonceRule_spec.1 25 2).1 (by omega)
  exact h.trans (by decide)

/-- C6: the balance-drain rule contributes exactly 35 with exactly one
reason of the form "balance drop ~<drained, 6dp> ETH/100 blocks" whenever
the reference balance strictly exceeds the latest balance, and contributes
nothing when the balance is flat or increased. -/
theorem balanceRule_spec :
    ∀ balPast balLatest : ℤ,
      (balLatest < balPast →
        balanceRule balPast balLatest =
          (35, ["balance drop ~" ++ weiToEthText6Int (balPast - balLatest) ++
            " ETH/100 blocks"])) ∧
      (balPast ≤ balLatest → balanceRule balPast balLatest = (0, [])) := by
  intro bp bl
  constructor
  · intro h
    simp only [balanceRule]
    rw [if_pos (by omega)]
  · intro h
    simp only [balanceRule]
    rw [if_neg (by omega)]

/-- C6 (witness): the rule applied at reference balance 2 ETH and latest
balance 1.5 ETH: one reason with the 0.500000 drain amount. -/
theorem balanceRule_spec_witness :
    balanceRule (2 * 10 ^ 18) (15 * 10 ^ 17) =
      (35, ["balance drop ~0.500000 ETH/100 blocks"]) := by
  have h := (balanceRule_spec (2 * 10 ^ 18) (15 * 10 ^ 17)).1 (by norm_num)
  exact h.trans (by decide)

/-- C7: every produced report's score is the clamp of the sum of the
independently-triggered rule weights (35, 25, 10 or 0 each), hence lies in
[0, 100] and is in fact at most 70 with the three defined rules; and the
clamp caps any synthetic sum exceeding 100 at exactly 100. -/
theorem riskScore_bounds :
    (∀ (addr : String) (rpc : Rpc) (r : Report), runProbe addr rpc = .ok r →
      (∃ wb wn wc : ℤ, (wb = 0 ∨ wb = 35) ∧ (wn = 0 ∨ wn = 25) ∧
        (wc = 0 ∨ wc = 10) ∧ r.score = clamp (wb + wn + wc)) ∧
      0 ≤ r.score ∧ r.score ≤ 70 ∧ r.score ≤ 100) ∧
    (∀ s : ℤ, 100 < s → clamp s = 100) := by
  constructor
  · intro addr rpc r h
    obtain ⟨bp, bl, nn, np, cl, hs, _⟩ := runProbe_ok_shape addr rpc r h
    have hshape : ∃ wb wn wc : ℤ, (wb = 0 ∨ wb = 35) ∧ (wn = 0 ∨ wn = 25) ∧
        (wc = 0 ∨ wc = 10) ∧ r.score = clamp (wb + wn + wc) := by
      exact ⟨(balanceRule bp bl).1, (nonceRule nn np).1, (codeRule cl).1,
        balanceRule_fst bp bl, nonceRule_fst nn np, codeRule_fst cl, hs⟩
    refine ⟨hshape, ?_⟩
    obtain ⟨wb, wn, wc, hwb, hwn, hwc, hsc⟩ := hshape
    have hcl : clamp (wb + wn + wc) = wb + wn + wc := by
      rw [clamp, if_neg (by rcases hwb with h1 | h1 <;> rcases hwn with h2 | h2 <;>
        rcases hwc with h3 | h3 <;> subst h1 <;> subst h2 <;> subst h3 <;> omega)]
    rw [hsc, hcl]
    rcases hwb with h1 | h1 <;> rcases hwn with h2 | h2 <;>
      rcases hwc with h3 | h3 <;> subst h1 <;> subst h2 <;> subst h3 <;> omega
  · intro s hs
    rw [clamp, if_pos hs]

/-- C7 (witness): the bounds applied to a concrete produced report (score
35), and the clamp applied to the synthetic over-100 sum 135. -/
theorem riskScore_bounds_witness :
    (0 : ℤ) ≤ 35 ∧ (35 : ℤ) ≤ 70 ∧ clamp 135 = 100 := by
  have h2 := riskScore_bounds.2 135 (by norm_num)
  have h1 := riskScore_bounds.1 "0xa"
    (chainRpc ⟨1000, fun _ => 0, fun h => if h = 1000 then 21 else 0, "6080"⟩)
    { address := "0xa", blockHex := "0x3e8", score := 35,
      reasons := ["high tx activity: +21 nonce/100 blocks",
                  "address has code (smart wallet or contract)"],
      balanceEth := "0.000000" }
    (by decide)
  exact ⟨h1.2.1, h1.2.2.1, h2⟩

/-- C8: every produced report's reasons list is the concatenation, in the
fixed evaluation order (balance drain, then activity spike, then code
presence), of the at-most-one reason each rule appends, so it has length
at most 3; and the end-to-end run with nonce delta 21, equal balances and
code present yields exactly the activity reason followed by the code
reason. -/
theorem reasons_order :
    (∀ (addr : String) (rpc : Rpc) (r : Report), runProbe addr rpc = .ok r →
      ∃ bp bl nn np : ℤ, ∃ cl : ℕ,
        r.reasons = (balanceRule bp bl).2 ++ (nonceRule nn np).2 ++ (codeRule cl).2 ∧
        (balanceRule bp bl).2.length ≤ 1 ∧ (nonceRule nn np).2.length ≤ 1 ∧
        (codeRule cl).2.length ≤ 1 ∧ r.reasons.length ≤ 3) ∧
    runProbe "0xa" (chainRpc ⟨1000, fun _ => 0, fun h => if h = 1000 then 21 else 0,
        "6080"⟩) =
      .ok { address := "0xa", blockHex := "0x3e8", score := 35,
            reasons := ["high tx activity: +21 nonce/100 blocks",
                        "address has code (smart wallet or contract)"],
            balanceEth := "0.000000" } := by
  refine ⟨?_, by decide⟩
  intro addr rpc r h
  obtain ⟨bp, bl, nn, np, cl, _, hr⟩ := runProbe_ok_shape addr rpc r h
  have h1 := balanceRule_snd_len bp bl
  have h2 := nonceRule_snd_len nn np
  have h3 := codeRule_snd_len cl
  refine ⟨bp, bl, nn, np, cl, hr, h1, h2, h3, ?_⟩
  rw [hr]
  show ((balanceRule bp bl).2 ++ (nonceRule nn np).2 ++ (codeRule cl).2).length ≤ 3
  simp only [List.length_append]
  omega

/-- C8 (witness): the ordering statement applied to the end-to-end run of
the claim (the report with the two reasons in rule order). -/
theorem reasons_order_witness :
    ∃ bp bl nn np : ℤ, ∃ cl : ℕ,
      (["high tx activity: +21 nonce/100 blocks",
        "address has code (smart wallet or contract)"] : List String) =
        (balanceRule bp bl).2 ++ (nonceRule nn np).2 ++ (codeRule cl).2 ∧
      (balanceRule bp bl).2.length ≤ 1 ∧ (nonceRule nn np).2.length ≤ 1 ∧
      (codeRule cl).2.length ≤ 1 ∧
      (["high tx activity: +21 nonce/100 blocks",
        "address has code (smart wallet or contract)"] : List String).length ≤ 3 :=
  reasons_order.1 "0xa"
    (chainRpc ⟨1000, fun _ => 0, fun h => if h = 1000 then 21 else 0, "6080"⟩)
    { address := "0xa", blockHex := "0x3e8", score := 35,
      reasons := ["high tx activity: +21 nonce/100 blocks",
                  "address has code (smart wallet or contract)"],
      balanceEth := "0.000000" }
    (by decide)

/-- C9: a well-formed `eth_getCode` raw result carrying n bytes of code has
raw length 2n + 4 (two quotes, the "0x" mark, two hex characters per
byte); the probe's `len(raw) > 4` test is true iff the decoded byte length
n is positive — the "0x" sentinel (n = 0, raw length 4) yields no
contribution — and when it is positive the code-presence rule contributes
+10 exactly once with exactly one reason. -/
theorem codeRule_spec :
    ∀ n : ℕ,
      codeRule (2 * n + 4) =
        (if 0 < n then ((10 : ℤ), ["address has code (smart wallet or contract)"])
         else (0, [])) ∧
      (4 < 2 * n + 4 ↔ 0 < n) ∧
      codeRule (rawLen (some "\"0x\"")) = (0, []) := by
  intro n
  refine ⟨?_, by omega, by decide⟩
  by_cases h : 0 < n
  · rw [if_pos h, codeRule, if_pos (by omega)]
  · rw [if_neg h, codeRule, if_neg (by omega)]

/-- C10: when a secondary remote call fails, `main` discards the error and
keeps the `nil` raw result; for the balance and nonce fetches the
subsequent `raw[1:len(raw)-1]` on that `nil` result is out of bounds
(`sliceRaw none = none`), so the run aborts with a runtime slice panic and
no report is produced; Go slicing of raw results is not a total
operation. -/
theorem secondaryFailure_panics :
    ∀ (addr : String) (c : Chain),
      runProbe addr { chainRpc c with getBalance := fun _ => none } =
        .error .sliceOOB ∧
      runProbe addr { chainRpc c with getTxCount := fun _ => none } =
        .error .sliceOOB ∧
      sliceRaw none = none := by
  intro addr c
  refine ⟨?_, ?_, rfl⟩
  · unfold runProbe
    simp only [chainRpc, goSlice_quoteWrap, sliceRaw_none]
  · unfold runProbe probeRest
    simp only [chainRpc, goSlice_quoteWrap, sliceRaw_quoteWrap, sliceRaw_none]
    by_cases h100 : (100 : ℤ) < hexToBig ("0x" ++ hexStr c.latest)
    · rw [if_pos h100]
    · rw [if_neg h100]
